import Mathlib

/-!
Verification of the oq-engine hazard/risk calculator core.

This file shallowly embeds the numeric and structural core of
`openquake/engine/calculators/hazard/classical/core.py`,
`openquake/engine/calculators/hazard/scenario/core.py` and
`openquake/engine/calculators/risk/hazard_getters.py`, and proves the stated
properties of the curve combiner, the curve contribution task, the scenario
seed generator, the GMF persistence packaging and the hazard getters.

Numpy float arrays are modelled as functions out of `Fin` index sets into an
exact commutative ring (`ℚ` for the combiner claims, `ℝ` where the code takes
a real power).  A hazard-curve accumulator `acc[rlz][imt]` is a dependent
function: the number of levels depends on the IMT, as in the source where
`curves[imt]` has shape `(len(sites), len(imts[imt]))`.
-/

namespace OQ

/-- `acc[rlz][imt][site][level]`: the accumulator grid built in
`ClassicalHazardCalculator.execute` (`zeros = [[numpy.zeros(...)]]`). -/
abbrev Grid (K : Type) (R I S : ℕ) (L : Fin I → ℕ) : Type :=
  Fin R → (j : Fin I) → Fin S → Fin (L j) → K

/-- A task result `curves_by_rlz`: per realization and IMT either a dense
matrix or the `None` placeholder used for zero-contribution blocks. -/
abbrev BlockResult (K : Type) (R I S : ℕ) (L : Fin I → ℕ) : Type :=
  Fin R → (j : Fin I) → Option (Fin S → Fin (L j) → K)

variable {K : Type} [CommRing K]

/-- Embedding of `ClassicalHazardCalculator.multiply_curves`
(classical/core.py lines 122-142): for each realization index `i` and IMT
index `j`, if the incoming `matrix` is not `None` the accumulator entry is
replaced by `1 - (1 - acc[i][j]) * (1 - matrix)` elementwise; `None` entries
leave the accumulator untouched. -/
def multiply_curves {R I S : ℕ} {L : Fin I → ℕ}
    (acc : Grid K R I S L) (curves_by_rlz : BlockResult K R I S L) :
    Grid K R I S L :=
  fun i j =>
    match curves_by_rlz i j with
    | none => acc i j
    | some matrix => fun s l => 1 - (1 - acc i j s l) * (1 - matrix s l)

/-- The all-zero initial accumulator `zeros` built in
`ClassicalHazardCalculator.execute` (classical/core.py lines 107-108). -/
def zeros (K : Type) [CommRing K] (R I S : ℕ) (L : Fin I → ℕ) :
    Grid K R I S L :=
  fun _ _ _ _ => 0

/-- The reduction performed by `tasks.map_reduce(generate_curves, task_args,
self.multiply_curves, zeros)` (classical/core.py lines 112-113), folding the
task results into the all-zero accumulator in arrival order. -/
def fold_curves {R I S : ℕ} {L : Fin I → ℕ}
    (results : List (BlockResult K R I S L)) : Grid K R I S L :=
  results.foldl multiply_curves (zeros K R I S L)

/-- The factor a single block result contributes to entry `(s, l)` of the
accumulator: `1 - matrix[s][l]` for a dense matrix, `1` for the placeholder. -/
def contribution {S Lj : ℕ} (s : Fin S) (l : Fin Lj) :
    Option (Fin S → Fin Lj → K) → K
  | none => 1
  | some matrix => 1 - matrix s l

lemma multiply_curves_apply {R I S : ℕ} {L : Fin I → ℕ}
    (acc : Grid K R I S L) (new : BlockResult K R I S L)
    (i : Fin R) (j : Fin I) (s : Fin S) (l : Fin (L j)) :
    multiply_curves acc new i j s l
      = 1 - (1 - acc i j s l) * contribution s l (new i j) := by
  unfold multiply_curves contribution
  cases new i j with
  | none => ring
  | some matrix => rfl

lemma foldl_multiply_curves_entry {R I S : ℕ} {L : Fin I → ℕ}
    (results : List (BlockResult K R I S L)) (acc : Grid K R I S L)
    (i : Fin R) (j : Fin I) (s : Fin S) (l : Fin (L j)) :
    results.foldl multiply_curves acc i j s l
      = 1 - (1 - acc i j s l)
            * (results.map (fun new => contribution s l (new i j))).prod := by
  induction results generalizing acc with
  | nil => simp
  | cons new rest ih =>
      rw [List.foldl_cons, ih, multiply_curves_apply, List.map_cons,
        List.prod_cons]
      ring

/-- Concrete inputs used to instantiate the combiner theorems. -/
def accC1 : Grid ℚ 1 2 1 (fun _ => 1) := fun _ _ _ _ => 1/2

def matC1 : Fin 1 → Fin 1 → ℚ := fun _ _ => 1/3

def newC1 : BlockResult ℚ 1 2 1 (fun _ => 1) :=
  fun _ j => if j.val = 0 then some matC1 else none

def blockA : BlockResult ℚ 1 1 1 (fun _ => 1) := fun _ _ => some (fun _ _ => 1/4)

def blockB : BlockResult ℚ 1 1 1 (fun _ => 1) := fun _ _ => some (fun _ _ => 1/5)

/-- A probabilistic rupture as consumed by `generate_curves`
(classical/core.py lines 64-74), with its external collaborators recorded as
data: `prob` is `rupture.get_probability_one_or_more_occurrences()`,
`affected` marks the sites of `r_sites` (sites surviving distance filtering),
and `poes i j s l` is the exceedance probability returned by
`gsim.get_poes(sctx, rctx, dctx, imt, imts[imt], hc.truncation_level)` for
realization `i` (whose logic-tree path selects the GSIM), IMT `j`, site `s`
and level `l`. -/
structure Rupture (R S I : ℕ) (L : Fin I → ℕ) where
  prob : ℝ
  affected : Fin S → Bool
  poes : Fin R → (j : Fin I) → Fin S → Fin (L j) → ℝ

/-- Modelled from the spec: `SiteCollection.expand` (called as
`r_sites.expand(..., len(sites), placeholder=1)` in classical/core.py line
72) is defined outside the provided sources; per the spec it expands an array
over the affected sites back to the full site set, unaffected sites receiving
the placeholder value. -/
def expand {S Lj : ℕ} (affected : Fin S → Bool) (data : Fin S → Fin Lj → ℝ)
    (placeholder : ℝ) : Fin S → Fin Lj → ℝ :=
  fun s l => if affected s then data s l else placeholder

/-- The rupture loop of `generate_curves` (classical/core.py lines 62-76) for
realization `i` and IMT `j`: starting from `numpy.ones`, multiply elementwise
by `r_sites.expand((1 - prob) ** poes, len(sites), placeholder=1)` for each
rupture, then invert the grid (`curves[imt] = 1 - curves[imt]`).  The power
is a real power, as in numpy. -/
noncomputable def block_curves {R S I : ℕ} {L : Fin I → ℕ}
    (ruptures : List (Rupture R S I L)) (i : Fin R) (j : Fin I) :
    Fin S → Fin (L j) → ℝ :=
  fun s l =>
    1 - (ruptures.foldl
      (fun grid rupture => fun s' l' =>
        grid s' l' * expand rupture.affected
          (fun s2 l2 => (1 - rupture.prob) ^ rupture.poes i j s2 l2) 1 s' l')
      (fun _ _ => 1)) s l

section
open Classical

/-- Embedding of the task `generate_curves` (classical/core.py lines 33-87):
per realization and IMT it returns the inverted grid, or the `None`
placeholder when that grid is uniformly zero (the shortcut for filtered
sources at lines 79-83). -/
noncomputable def generate_curves {R S I : ℕ} {L : Fin I → ℕ}
    (ruptures : List (Rupture R S I L)) : BlockResult ℝ R I S L :=
  fun i j =>
    if ∀ s l, block_curves ruptures i j s l = 0 then none
    else some (block_curves ruptures i j)

end

lemma block_curves_foldl_entry {R S I : ℕ} {L : Fin I → ℕ}
    (ruptures : List (Rupture R S I L)) (i : Fin R) (j : Fin I)
    (g0 : Fin S → Fin (L j) → ℝ) (s : Fin S) (l : Fin (L j)) :
    (ruptures.foldl
      (fun grid rupture => fun s' l' =>
        grid s' l' * expand rupture.affected
          (fun s2 l2 => (1 - rupture.prob) ^ rupture.poes i j s2 l2) 1 s' l')
      g0) s l
      = g0 s l * (ruptures.map fun rupture =>
          if rupture.affected s then (1 - rupture.prob) ^ rupture.poes i j s l
          else 1).prod := by
  induction ruptures generalizing g0 with
  | nil => simp
  | cons rupture rest ih =>
      rw [List.foldl_cons, ih, List.map_cons, List.prod_cons]
      unfold expand
      ring

def accC8 : Grid ℚ 1 1 1 (fun _ => 2) :=
  fun _ _ _ l => if l.val = 0 then 1 else 0

def matC8 : Fin 1 → Fin 2 → ℚ := fun _ l => if l.val = 0 then 1 else 0

def newC8 : BlockResult ℚ 1 1 1 (fun _ => 2) := fun _ _ => some matC8

/-- Levels array of the single IMT in the end-to-end scenario: 3 levels. -/
abbrev L3 : Fin 1 → ℕ := fun _ => 3

/-- The end-to-end rupture: occurrence probability `0.1`, affecting both
sites, exceedance probability `0.5` at every site and level. -/
noncomputable def rupC3 : Rupture 1 2 1 L3 :=
  { prob := 1/10, affected := fun _ => true, poes := fun _ _ _ _ => 1/2 }

/-- The block result of the end-to-end scenario: one task over the block of
two identical ruptures. -/
noncomputable def curvesC3 : BlockResult ℝ 1 1 2 L3 :=
  generate_curves [rupC3, rupC3]

/-- The end-to-end final accumulator: the block result combined into the
all-zero initial accumulator by `multiply_curves`. -/
noncomputable def finalC3 : Grid ℝ 1 1 2 L3 :=
  multiply_curves (zeros ℝ 1 1 2 L3) curvesC3

lemma block_curvesC3_entry (s : Fin 2) (l : Fin 3) :
    block_curves [rupC3, rupC3] (0 : Fin 1) (0 : Fin 1) s l = 1/10 := by
  unfold block_curves
  rw [block_curves_foldl_entry]
  simp only [rupC3, List.map_cons, List.map_nil, List.prod_cons,
    List.prod_nil, if_true, one_mul, mul_one]
  rw [← Real.rpow_add (by norm_num)]
  norm_num

lemma curvesC3_eq :
    curvesC3 0 0 = some (block_curves [rupC3, rupC3] 0 0) := by
  unfold curvesC3 generate_curves
  rw [if_neg]
  intro h
  have h00 := h 0 0
  rw [block_curvesC3_entry] at h00
  norm_num at h00

lemma finalC3_entry (s : Fin 2) (l : Fin 3) : finalC3 0 0 s l = 1/10 := by
  unfold finalC3
  rw [multiply_curves_apply, curvesC3_eq]
  simp only [contribution]
  rw [block_curvesC3_entry]
  unfold zeros
  norm_num

/-- A pure model of the stdlib `random.Random` generator used by
`ScenarioHazardCalculator.task_arg_gen` (scenario/core.py lines 192-196):
`seed` models `rnd.seed(s)`, producing the initial generator state, and
`randint` models `rnd.randint(0, models.MAX_SINT_32)`, returning the drawn
value together with the successor state.  The stdlib Mersenne Twister is an
external collaborator; what matters here is that it is a deterministic
function of the state seeded once, centrally, from the top-level seed. -/
structure PRNG (σ : Type) where
  seed : ℕ → σ
  randint : σ → ℕ × σ

/-- `[rnd.randint(0, models.MAX_SINT_32) for _ in range(n_tasks)]`: draw `n`
successive values from the generator, threading the state. -/
def draw {σ : Type} (g : PRNG σ) : ℕ → σ → List ℕ
  | 0, _ => []
  | n + 1, st => (g.randint st).1 :: draw g n (g.randint st).2

/-- The sub-seed sequence of `task_arg_gen`: seed the generator with the
calculation's top-level `random_seed`, then draw one sub-seed per task. -/
def sub_seeds {σ : Type} (g : PRNG σ) (random_seed n_tasks : ℕ) : List ℕ :=
  draw g n_tasks (g.seed random_seed)

/-- Embedding of `ScenarioHazardCalculator.task_arg_gen` (scenario/core.py
lines 184-200): `n_tasks = int(math.ceil(float(n_gmf) / block_size))`
sub-seeds are drawn from the freshly seeded generator, and each yielded tuple
is `(job.id, [seed], rupture, gmf.id)` — the seed goes into a single-element
list, as the assertion at the top of `compute_gmfs` (lines 70-71) demands.
The ceiling of the float division is modelled exactly as
`(n_gmf + block_size - 1) / block_size` in natural division. -/
def task_arg_gen {σ ρ : Type} (g : PRNG σ) (random_seed n_gmf block_size : ℕ)
    (job_id : ℕ) (rupture : ρ) (gmf_id : ℕ) : List (ℕ × List ℕ × ρ × ℕ) :=
  (sub_seeds g random_seed ((n_gmf + block_size - 1) / block_size)).map
    (fun seed => (job_id, [seed], rupture, gmf_id))

lemma draw_length {σ : Type} (g : PRNG σ) :
    ∀ (n : ℕ) (st : σ), (draw g n st).length = n
  | 0, _ => rfl
  | n + 1, st => by
      rw [draw, List.length_cons, draw_length g n]

/-- Generator used to instantiate the seed-sequence theorem. -/
def prngW : PRNG ℕ :=
  { seed := fun s => s, randint := fun st => (st % 1000, 3 * st + 7) }

/-- An intensity measure type as consumed by `save_gmf`: spectral
acceleration with period and damping, or another IMT identified by its
hazardlib class name (`PGA`, `PGV`, ...). -/
inductive IMT : Type
  | SA (period damping : ℚ)
  | other (imt_class : String)
deriving DecidableEq

/-- `imt.__class__.__name__` (scenario/core.py line 110). -/
def IMT.name : IMT → String
  | SA _ _ => "SA"
  | other n => n

/-- `sa_period` as set at scenario/core.py lines 105-108: the IMT's period
for SA instances, `None` otherwise. -/
def IMT.sa_period : IMT → Option ℚ
  | SA p _ => some p
  | other _ => none

/-- `sa_damping` as set at scenario/core.py lines 106-109. -/
def IMT.sa_damping : IMT → Option ℚ
  | SA _ d => some d
  | other _ => none

/-- One `models.GmfData` row as built by `save_gmf` (scenario/core.py lines
116-124); the `ses_id` and `rupture_ids` fields are always `None` there and
are omitted. -/
structure GmfData where
  gmf_id : ℕ
  imt : String
  sa_period : Option ℚ
  sa_damping : Option ℚ
  site_id : ℕ
  gmvs : List ℚ

/-- The row inserted for one `(imt, site)` pair, carrying `map(float,
values)` — the site's sampled value list. -/
def mk_gmf_data (gmf_id : ℕ) (imt : IMT) (values : List ℚ) (site_id : ℕ) :
    GmfData :=
  { gmf_id := gmf_id, imt := imt.name, sa_period := imt.sa_period,
    sa_damping := imt.sa_damping, site_id := site_id, gmvs := values }

/-- Embedding of `save_gmf` (scenario/core.py lines 88-126): for each
`(imt, gmvs)` pair of the GMF dictionary and each `(values, site)` pair of
`itertools.izip(gmvs, sites)`, one `GmfData` row is added to the cache
inserter.  The reshape at lines 113-114 only normalizes the numpy array
shape, and `map(float, ...)` is the identity on the modelled exact values. -/
def save_gmf (gmf_id : ℕ) (gmf_dict : List (IMT × List (List ℚ)))
    (sites : List ℕ) : List GmfData :=
  gmf_dict.foldl
    (fun inserter p =>
      inserter
        ++ List.zipWith (fun values site => mk_gmf_data gmf_id p.1 values site)
             p.2 sites)
    []

/-- The identifying key of a stored row: (imt name, period, damping), site. -/
def rec_key (r : GmfData) : (String × Option ℚ × Option ℚ) × ℕ :=
  ((r.imt, r.sa_period, r.sa_damping), r.site_id)

/-- The identifying key of an IMT: unique by (name, period, damping). -/
def IMT.key (imt : IMT) : String × Option ℚ × Option ℚ :=
  (imt.name, imt.sa_period, imt.sa_damping)

lemma foldl_append_eq_flatMap {α β : Type} (f : α → List β) :
    ∀ (l : List α) (init : List β),
      l.foldl (fun acc p => acc ++ f p) init = init ++ l.flatMap f
  | [], init => by simp
  | a :: t, init => by
      rw [List.foldl_cons, foldl_append_eq_flatMap f t, List.flatMap_cons,
        List.append_assoc]

lemma save_gmf_eq (gmf_id : ℕ) (gmf_dict : List (IMT × List (List ℚ)))
    (sites : List ℕ) :
    save_gmf gmf_id gmf_dict sites
      = gmf_dict.flatMap (fun p =>
          List.zipWith (fun values site => mk_gmf_data gmf_id p.1 values site)
            p.2 sites) := by
  unfold save_gmf
  rw [foldl_append_eq_flatMap, List.nil_append]

lemma zipWith_const_right {α β γ : Type} (h : β → γ) :
    ∀ (as : List α) (bs : List β), as.length = bs.length →
      List.zipWith (fun _ b => h b) as bs = bs.map h
  | [], [], _ => rfl
  | [], _ :: _, hl => by simp at hl
  | _ :: _, [], hl => by simp at hl
  | a :: as, b :: bs, hl => by
      rw [List.zipWith_cons_cons, List.map_cons,
        zipWith_const_right h as bs (by simpa using hl)]

lemma mem_zipWith {α β γ : Type} {f : α → β → γ} {c : γ} :
    ∀ {as : List α} {bs : List β}, c ∈ List.zipWith f as bs →
      ∃ a b, a ∈ as ∧ b ∈ bs ∧ c = f a b
  | [], _, h => by simp at h
  | _ :: _, [], h => by simp at h
  | a :: as, b :: bs, h => by
      rw [List.zipWith_cons_cons] at h
      rcases List.mem_cons.mp h with h1 | h2
      · exact ⟨a, b, List.mem_cons_self a as, List.mem_cons_self b bs, h1⟩
      · obtain ⟨a', b', ha, hb, hc⟩ := mem_zipWith h2
        exact ⟨a', b', List.mem_cons_of_mem _ ha, List.mem_cons_of_mem _ hb, hc⟩

lemma IMT.key_injective : Function.Injective IMT.key := by
  intro x y h
  cases x with
  | SA p d =>
      cases y with
      | SA p' d' =>
          simp only [IMT.key, IMT.name, IMT.sa_period, IMT.sa_damping,
            Prod.mk.injEq, Option.some.injEq] at h
          rw [h.2.1, h.2.2]
      | other m =>
          simp only [IMT.key, IMT.sa_period, Prod.mk.injEq] at h
          exact absurd h.2.1 (by simp)
  | other n =>
      cases y with
      | SA p' d' =>
          simp only [IMT.key, IMT.sa_period, Prod.mk.injEq] at h
          exact absurd h.2.1 (by simp)
      | other m =>
          simp only [IMT.key, IMT.name, Prod.mk.injEq] at h
          rw [h.1]

lemma flatMap_length_const {α : Type} (inner : α → List GmfData) (n : ℕ) :
    ∀ (d : List α), (∀ p ∈ d, (inner p).length = n) →
      (d.flatMap inner).length = d.length * n
  | [], _ => by simp
  | p :: t, hd => by
      rw [List.flatMap_cons, List.length_append, hd p (List.mem_cons_self p t),
        flatMap_length_const inner n t
          (fun q hq => hd q (List.mem_cons_of_mem _ hq)),
        List.length_cons]
      rw [Nat.succ_mul]
      omega

lemma flatMap_congr_mem {α β : Type} {f g : α → List β} :
    ∀ {l : List α}, (∀ a ∈ l, f a = g a) → l.flatMap f = l.flatMap g
  | [], _ => rfl
  | a :: t, h => by
      rw [List.flatMap_cons, List.flatMap_cons, h a (List.mem_cons_self a t),
        flatMap_congr_mem (fun b hb => h b (List.mem_cons_of_mem _ hb))]

/-- Concrete GMF dictionary and sites for the persistence witness. -/
def gmfDictW : List (IMT × List (List ℚ)) :=
  [(IMT.SA 1 5, [[1], [2]]), (IMT.other "PGA", [[3], [4]])]

def sitesW : List ℕ := [10, 20]

end OQ

section
open Classical

/-- C4: for every block of ruptures, realization `i` and IMT `j`, the grid
computed by `generate_curves` starts from all ones, is multiplied per rupture
by `(1 - occurrence probability) ** exceedance probability` expanded to the
full site set with multiplicative identity `1` at unaffected sites, is then
inverted (`1 - grid`), and is returned as the `None` placeholder exactly when
the resulting grid is uniformly zero; in closed form each dense entry equals
`1` minus the product of the per-rupture factors. -/
theorem OQ.generate_curves_spec {R S I : ℕ} {L : Fin I → ℕ}
    (ruptures : List (OQ.Rupture R S I L)) (i : Fin R) (j : Fin I) :
    OQ.generate_curves ruptures i j
      = if ∀ s l, (1 : ℝ) - (ruptures.map fun rupture =>
            if rupture.affected s then (1 - rupture.prob) ^ rupture.poes i j s l
            else 1).prod = 0
        then none
        else some (fun s l => 1 - (ruptures.map fun rupture =>
            if rupture.affected s then (1 - rupture.prob) ^ rupture.poes i j s l
            else 1).prod) := by
  have key : ∀ s l, OQ.block_curves ruptures i j s l
      = 1 - (ruptures.map fun rupture =>
          if rupture.affected s then (1 - rupture.prob) ^ rupture.poes i j s l
          else 1).prod := by
    intro s l
    unfold OQ.block_curves
    rw [OQ.block_curves_foldl_entry]
    ring
  unfold OQ.generate_curves
  refine if_congr (forall₂_congr fun s l => ?_) rfl ?_
  · rw [key s l]
  · exact congrArg some (funext fun s => funext fun l => key s l)

end

/-- C3 as stated is false on the code: in the 2-site, 1-IMT, 3-level
end-to-end scenario with two ruptures of occurrence probability `0.1` and
exceedance probability `0.5`, the final combined value at site 0, level 0 is
`0.1`, not `1 - (1 - 0.05)^2 = 0.0975`. -/
theorem OQ.end_to_end_counterexample : OQ.finalC3 0 0 0 0 ≠ 39/400 := by
  rw [OQ.finalC3_entry]
  norm_num

/-- C3 (amended): the Curve Contribution Task followed by the Curve Combiner
on the all-zero accumulator produces, in that scenario, a final probability
of `1 - ((1-0.1)^0.5)^2 = 1 - 0.9 = 0.1` at every level and site. -/
theorem OQ.end_to_end_amended :
    ∀ (s : Fin 2) (l : Fin 3), OQ.finalC3 0 0 s l = 1/10 :=
  fun s l => OQ.finalC3_entry s l

/-- C1: `multiply_curves` maps each accumulator entry `(i, j)` to
`1 - (1 - acc[i][j]) * (1 - new[i][j])` elementwise when `new[i][j]` is not the
`None` placeholder, leaves it exactly equal to `acc[i][j]` when it is, and
combining with an all-placeholder block result is a true no-op. -/
theorem OQ.multiply_curves_placeholder_spec {R I S : ℕ} {L : Fin I → ℕ}
    (acc : OQ.Grid ℚ R I S L) (new : OQ.BlockResult ℚ R I S L) :
    (∀ i j matrix, new i j = some matrix →
      ∀ s l, OQ.multiply_curves acc new i j s l
        = 1 - (1 - acc i j s l) * (1 - matrix s l)) ∧
    (∀ i j, new i j = none → OQ.multiply_curves acc new i j = acc i j) ∧
    OQ.multiply_curves acc (fun _ _ => none) = acc := by
  refine ⟨fun i j matrix h s l => ?_, fun i j h => ?_, ?_⟩
  · unfold OQ.multiply_curves
    rw [h]
  · unfold OQ.multiply_curves
    rw [h]
  · funext i j
    rfl

/-- Witness for C1 at a concrete accumulator: IMT 0 holds a dense matrix and
is combined by the union formula, IMT 1 holds the placeholder and passes
through unchanged. -/
theorem OQ.multiply_curves_placeholder_spec_witness :
    OQ.newC1 0 0 = some OQ.matC1 ∧
    OQ.multiply_curves OQ.accC1 OQ.newC1 0 0 0 0
      = 1 - (1 - OQ.accC1 0 0 0 0) * (1 - OQ.matC1 0 0) ∧
    OQ.newC1 0 1 = none ∧
    OQ.multiply_curves OQ.accC1 OQ.newC1 0 1 = OQ.accC1 0 1 :=
  ⟨rfl,
   (OQ.multiply_curves_placeholder_spec OQ.accC1 OQ.newC1).1 0 0 OQ.matC1 rfl 0 0,
   rfl,
   (OQ.multiply_curves_placeholder_spec OQ.accC1 OQ.newC1).2.1 0 1 rfl⟩

/-- C2: folding any permutation of a finite list of block results into the
all-zero initial accumulator yields identical final grids for every
realization and IMT, so the reduction is independent of task completion
order. -/
theorem OQ.fold_curves_perm_invariant {R I S : ℕ} {L : Fin I → ℕ}
    (results results' : List (OQ.BlockResult ℚ R I S L))
    (hperm : results.Perm results') :
    OQ.fold_curves results = OQ.fold_curves results' := by
  funext i j s l
  unfold OQ.fold_curves
  rw [OQ.foldl_multiply_curves_entry, OQ.foldl_multiply_curves_entry,
    (hperm.map (fun new => OQ.contribution s l (new i j))).prod_eq]

/-- Witness for C2: swapping two concrete block results leaves the folded
accumulator unchanged. -/
theorem OQ.fold_curves_perm_invariant_witness :
    OQ.fold_curves [OQ.blockA, OQ.blockB]
      = OQ.fold_curves [OQ.blockB, OQ.blockA] :=
  OQ.fold_curves_perm_invariant [OQ.blockA, OQ.blockB] [OQ.blockB, OQ.blockA]
    (List.Perm.swap OQ.blockB OQ.blockA [])

/-- C8: if every entry of the accumulator, and of every dense matrix in the
block result, lies in `[0, 1]` and is non-increasing along the levels axis,
then the grid produced by `multiply_curves` again has every entry in `[0, 1]`
and is non-increasing along the levels axis. -/
theorem OQ.multiply_curves_preserves_invariant {R I S : ℕ} {L : Fin I → ℕ}
    (acc : OQ.Grid ℚ R I S L) (new : OQ.BlockResult ℚ R I S L)
    (hacc01 : ∀ i j s l, 0 ≤ acc i j s l ∧ acc i j s l ≤ 1)
    (haccmono : ∀ i j s, ∀ l l' : Fin (L j), l ≤ l' → acc i j s l' ≤ acc i j s l)
    (hnew01 : ∀ i j matrix, new i j = some matrix →
      ∀ s l, 0 ≤ matrix s l ∧ matrix s l ≤ 1)
    (hnewmono : ∀ i j matrix, new i j = some matrix →
      ∀ s, ∀ l l' : Fin (L j), l ≤ l' → matrix s l' ≤ matrix s l) :
    (∀ i j s l, 0 ≤ OQ.multiply_curves acc new i j s l ∧
      OQ.multiply_curves acc new i j s l ≤ 1) ∧
    (∀ i j s, ∀ l l' : Fin (L j), l ≤ l' →
      OQ.multiply_curves acc new i j s l' ≤ OQ.multiply_curves acc new i j s l) := by
  constructor
  · intro i j s l
    obtain ⟨ha0, ha1⟩ := hacc01 i j s l
    rw [OQ.multiply_curves_apply]
    cases h : new i j with
    | none =>
        simp only [OQ.contribution]
        constructor <;> linarith
    | some matrix =>
        obtain ⟨hm0, hm1⟩ := hnew01 i j matrix h s l
        simp only [OQ.contribution]
        constructor <;> nlinarith
  · intro i j s l l' hll
    rw [OQ.multiply_curves_apply, OQ.multiply_curves_apply]
    cases h : new i j with
    | none =>
        simp only [OQ.contribution]
        have haml := haccmono i j s l l' hll
        linarith
    | some matrix =>
        simp only [OQ.contribution]
        obtain ⟨ha0, ha1⟩ := hacc01 i j s l
        obtain ⟨ha0', ha1'⟩ := hacc01 i j s l'
        obtain ⟨hm0, hm1⟩ := hnew01 i j matrix h s l
        obtain ⟨hm0', hm1'⟩ := hnew01 i j matrix h s l'
        have haml := haccmono i j s l l' hll
        have hmml := hnewmono i j matrix h s l l' hll
        nlinarith

/-- Witness for C8 at a concrete accumulator and block result satisfying the
grid invariant. -/
theorem OQ.multiply_curves_preserves_invariant_witness :
    (∀ i j s l, 0 ≤ OQ.accC8 i j s l ∧ OQ.accC8 i j s l ≤ 1) ∧
    (∀ i j s, ∀ l l' : Fin 2, l ≤ l' → OQ.accC8 i j s l' ≤ OQ.accC8 i j s l) ∧
    (∀ i j s l, 0 ≤ OQ.multiply_curves OQ.accC8 OQ.newC8 i j s l ∧
      OQ.multiply_curves OQ.accC8 OQ.newC8 i j s l ≤ 1) ∧
    (∀ i j s, ∀ l l' : Fin 2, l ≤ l' →
      OQ.multiply_curves OQ.accC8 OQ.newC8 i j s l'
        ≤ OQ.multiply_curves OQ.accC8 OQ.newC8 i j s l) := by
  have h := OQ.multiply_curves_preserves_invariant OQ.accC8 OQ.newC8
    (by simp [OQ.accC8, Fin.forall_fin_two])
    (by simp [OQ.accC8, Fin.forall_fin_two])
    (by intro i j matrix hm
        simp only [OQ.newC8, Option.some.injEq] at hm
        subst hm
        simp [OQ.matC8, Fin.forall_fin_two])
    (by intro i j matrix hm
        simp only [OQ.newC8, Option.some.injEq] at hm
        subst hm
        simp [OQ.matC8, Fin.forall_fin_two])
  exact ⟨by simp [OQ.accC8, Fin.forall_fin_two],
         by simp [OQ.accC8, Fin.forall_fin_two], h.1, h.2⟩

/-- C5: for a fixed top-level random seed, `task_arg_gen` produces exactly
`ceil(number_of_ground_motion_fields / block_size)` task argument tuples, one
freshly drawn sub-seed per batch, each wrapped in a single-element seed list;
the whole sequence is a pure function of the generator, the top-level seed
and the number of fields, so identical reruns reproduce it bit-identically
regardless of worker count or task ordering. -/
theorem OQ.task_arg_gen_deterministic {σ ρ : Type} (g : OQ.PRNG σ)
    (random_seed n_gmf block_size job_id : ℕ) (rupture : ρ) (gmf_id : ℕ)
    (hbs : 0 < block_size) :
    (OQ.task_arg_gen g random_seed n_gmf block_size job_id rupture gmf_id).length
        = (n_gmf + block_size - 1) / block_size ∧
    n_gmf ≤ (OQ.task_arg_gen g random_seed n_gmf block_size job_id rupture
        gmf_id).length * block_size ∧
    (∀ k : ℕ, n_gmf ≤ k * block_size →
      (OQ.task_arg_gen g random_seed n_gmf block_size job_id rupture
        gmf_id).length ≤ k) ∧
    OQ.task_arg_gen g random_seed n_gmf block_size job_id rupture gmf_id
      = (OQ.sub_seeds g random_seed ((n_gmf + block_size - 1) / block_size)).map
          (fun seed => (job_id, [seed], rupture, gmf_id)) ∧
    (∀ arg ∈ OQ.task_arg_gen g random_seed n_gmf block_size job_id rupture
        gmf_id, arg.2.1.length = 1) := by
  have hlen : (OQ.task_arg_gen g random_seed n_gmf block_size job_id rupture
      gmf_id).length = (n_gmf + block_size - 1) / block_size := by
    rw [OQ.task_arg_gen, List.length_map, OQ.sub_seeds, OQ.draw_length]
  refine ⟨hlen, ?_, ?_, rfl, ?_⟩
  · rw [hlen]
    rcases Nat.eq_zero_or_pos n_gmf with h0 | h0
    · simp [h0]
    · have h1 : n_gmf + block_size - 1 = (n_gmf - 1) + block_size := by omega
      rw [h1, Nat.add_div_right _ hbs]
      have h2 : n_gmf - 1 < ((n_gmf - 1) / block_size + 1) * block_size :=
        (Nat.div_lt_iff_lt_mul hbs).mp (Nat.lt_succ_self _)
      have h3 := Nat.succ_mul ((n_gmf - 1) / block_size) block_size
      omega
  · intro k hk
    rw [hlen]
    rw [← Nat.lt_succ_iff, Nat.div_lt_iff_lt_mul hbs, Nat.succ_mul]
    omega
  · intro arg harg
    rw [OQ.task_arg_gen] at harg
    obtain ⟨seed, _, rfl⟩ := List.mem_map.mp harg
    rfl

/-- Witness for C5: with a concrete pure generator, top-level seed 42, 2500
ground motion fields and block size 1000, exactly `ceil(2500/1000) = 3` task
argument tuples are generated. -/
theorem OQ.task_arg_gen_deterministic_witness :
    0 < 1000 ∧
    (OQ.task_arg_gen OQ.prngW 42 2500 1000 1 () 3).length
      = (2500 + 1000 - 1) / 1000 :=
  ⟨by decide,
   (OQ.task_arg_gen_deterministic OQ.prngW 42 2500 1000 1 () 3 (by decide)).1⟩

/-- C9: `save_gmf` inserts exactly one record per (site, IMT) pair — the
inserted rows are precisely the zip of each IMT's per-site value arrays with
the site collection, their number is `|gmf_dict| * |sites|`, their
(imt, period, damping, site) keys are pairwise distinct and cover every
(IMT, site) pair — and each record carries the value list for its site and
IMT, with period and damping set for SA-type IMTs and `None` for others. -/
theorem OQ.save_gmf_spec (gmf_id : ℕ)
    (gmf_dict : List (OQ.IMT × List (List ℚ))) (sites : List ℕ)
    (hlen : ∀ p ∈ gmf_dict, p.2.length = sites.length)
    (hsites : sites.Nodup)
    (himts : (gmf_dict.map (fun p => p.1)).Nodup) :
    OQ.save_gmf gmf_id gmf_dict sites
      = gmf_dict.flatMap (fun p =>
          List.zipWith (fun values site => OQ.mk_gmf_data gmf_id p.1 values site)
            p.2 sites) ∧
    (OQ.save_gmf gmf_id gmf_dict sites).length
      = gmf_dict.length * sites.length ∧
    ((OQ.save_gmf gmf_id gmf_dict sites).map OQ.rec_key).Nodup ∧
    (∀ p ∈ gmf_dict, ∀ site ∈ sites,
      (OQ.IMT.key p.1, site)
        ∈ (OQ.save_gmf gmf_id gmf_dict sites).map OQ.rec_key) ∧
    (∀ r ∈ OQ.save_gmf gmf_id gmf_dict sites, ∃ p ∈ gmf_dict,
      r.gmf_id = gmf_id ∧ r.imt = OQ.IMT.name p.1 ∧
      r.sa_period = OQ.IMT.sa_period p.1 ∧
      r.sa_damping = OQ.IMT.sa_damping p.1 ∧
      r.site_id ∈ sites ∧ r.gmvs ∈ p.2) := by
  have hchar := OQ.save_gmf_eq gmf_id gmf_dict sites
  have hmapkey : (OQ.save_gmf gmf_id gmf_dict sites).map OQ.rec_key
      = gmf_dict.flatMap (fun p =>
          sites.map (fun site => (OQ.IMT.key p.1, site))) := by
    rw [hchar, List.map_flatMap]
    refine OQ.flatMap_congr_mem (fun p hp => ?_)
    rw [List.map_zipWith]
    exact OQ.zipWith_const_right (fun site => (OQ.IMT.key p.1, site)) p.2 sites
      (hlen p hp)
  refine ⟨hchar, ?_, ?_, ?_, ?_⟩
  · rw [hchar]
    refine OQ.flatMap_length_const _ sites.length gmf_dict (fun p hp => ?_)
    rw [List.length_zipWith, hlen p hp, min_self]
  · rw [hmapkey]
    refine List.nodup_flatMap.mpr ⟨fun p _ => ?_, ?_⟩
    · exact hsites.map (fun a b hab => (Prod.mk.injEq _ _ _ _ ▸ hab :
        (OQ.IMT.key p.1, a).1 = (OQ.IMT.key p.1, b).1 ∧ a = b).2)
    · have hpair : gmf_dict.Pairwise (fun p q => p.1 ≠ q.1) :=
        List.pairwise_map.mp himts
      refine hpair.imp (fun hne x hx hy => ?_)
      obtain ⟨s1, _, rfl⟩ := List.mem_map.mp hx
      obtain ⟨s2, _, hkey⟩ := List.mem_map.mp hy
      have := (Prod.mk.injEq _ _ _ _).mp hkey.symm
      exact hne (OQ.IMT.key_injective this.1)
  · intro p hp site hs
    rw [hmapkey]
    exact List.mem_flatMap.mpr ⟨p, hp, List.mem_map.mpr ⟨site, hs, rfl⟩⟩
  · intro r hr
    rw [hchar] at hr
    obtain ⟨p, hp, hrin⟩ := List.mem_flatMap.mp hr
    obtain ⟨values, site, hv, hsite, rfl⟩ := OQ.mem_zipWith hrin
    exact ⟨p, hp, rfl, rfl, rfl, rfl, hsite, hv⟩

/-- Witness for C9 at a two-IMT (one SA, one PGA), two-site GMF dictionary. -/
theorem OQ.save_gmf_spec_witness :
    (∀ p ∈ OQ.gmfDictW, p.2.length = OQ.sitesW.length) ∧
    OQ.sitesW.Nodup ∧
    (OQ.gmfDictW.map (fun p => p.1)).Nodup ∧
    (OQ.save_gmf 5 OQ.gmfDictW OQ.sitesW).length = 2 * 2 :=
  ⟨by decide, by decide, by decide,
   (OQ.save_gmf_spec 5 OQ.gmfDictW OQ.sitesW (by decide) (by decide)
      (by decide)).2.1⟩

namespace OQ

/-- Embedding of the `HazardGetter` base class state (hazard_getters.py
lines 32-62): the constructor arguments stored by `__init__`, shared by all
getter subclasses. -/
structure HazardGetter (H A : Type) where
  hazard_outputs : List H
  site_assets : List (ℕ × List A)
  imt : String

/-- Embedding of `HazardGetter.__init__` (lines 53-58): the fields are
stored and `assert site_assets` rejects an empty site→assets mapping; the
assertion failure is modelled as `none`. -/
def HazardGetter.init {H A : Type} (hazard_outputs : List H)
    (site_assets : List (ℕ × List A)) (imt : String) :
    Option (HazardGetter H A) :=
  if site_assets.isEmpty then none
  else some { hazard_outputs := hazard_outputs, site_assets := site_assets,
              imt := imt }

/-- The `assets` property (lines 49-51): the assets of every site group of
the mapping, flattened in mapping order. -/
def HazardGetter.assets {H A : Type} (g : HazardGetter H A) : List A :=
  g.site_assets.flatMap (fun p => p.2)

namespace ScenarioGetter

/-- Embedding of `ScenarioGetter.get_gmvs` (hazard_getters.py lines
137-149).  `rows` holds the `gmvs` field of each `GmfData` row the database
query returns for the requested site and IMT; the boolean records whether
the missing-data warning was logged — in the source the `if not gmvs` check
runs inside the row loop, after extending with the current row. -/
def get_gmvs (rows : List (List ℚ)) : List ℚ × Bool :=
  rows.foldl
    (fun acc row => (acc.1 ++ row, acc.2 || (acc.1 ++ row).isEmpty))
    ([], false)

/-- One iteration of the `ScenarioGetter.get_data` loop (lines 163-170):
always extend `all_assets` with the site's assets; fetch the site's
ground-motion values and, only when some exist, broadcast the value array to
every asset of the site (`all_gmvs.extend([array] * n_assets)`). -/
def get_data_step {A : Type} (gmf_data : ℕ → List (List ℚ))
    (acc : List A × List (List ℚ)) (p : ℕ × List A) :
    List A × List (List ℚ) :=
  if ((get_gmvs (gmf_data p.1)).1).isEmpty then (acc.1 ++ p.2, acc.2)
  else (acc.1 ++ p.2,
        acc.2 ++ List.replicate p.2.length (get_gmvs (gmf_data p.1)).1)

/-- Embedding of `ScenarioGetter.get_data` (lines 151-177): fold the loop
over the site→assets mapping, starting from empty `all_assets`/`all_gmvs`.
`gmf_data site` stands for the stored rows of the requested IMT at `site`. -/
def get_data {A : Type} (site_assets : List (ℕ × List A))
    (gmf_data : ℕ → List (List ℚ)) : List A × List (List ℚ) :=
  site_assets.foldl (get_data_step gmf_data) ([], [])

lemma get_gmvs_foldl_fst (rows : List (List ℚ)) :
    ∀ acc : List ℚ × Bool,
      (rows.foldl
        (fun acc row => (acc.1 ++ row, acc.2 || (acc.1 ++ row).isEmpty))
        acc).1 = acc.1 ++ rows.flatten := by
  induction rows with
  | nil => intro acc; simp
  | cons r t ih =>
      intro acc
      rw [List.foldl_cons, ih, List.flatten_cons, List.append_assoc]

lemma get_gmvs_foldl_snd_true (rows : List (List ℚ)) :
    ∀ acc : List ℚ × Bool, acc.2 = true →
      (rows.foldl
        (fun acc row => (acc.1 ++ row, acc.2 || (acc.1 ++ row).isEmpty))
        acc).2 = true := by
  induction rows with
  | nil => intro acc h; exact h
  | cons r t ih =>
      intro acc h
      rw [List.foldl_cons]
      exact ih _ (by rw [h, Bool.true_or])

lemma get_gmvs_foldl_snd_stable (rows : List (List ℚ)) :
    ∀ acc : List ℚ × Bool, acc.1 ≠ [] →
      (rows.foldl
        (fun acc row => (acc.1 ++ row, acc.2 || (acc.1 ++ row).isEmpty))
        acc).2 = acc.2 := by
  induction rows with
  | nil => intro acc _; rfl
  | cons r t ih =>
      intro acc h
      rw [List.foldl_cons]
      have hne : acc.1 ++ r ≠ [] := fun hc => h (List.append_eq_nil.mp hc).1
      rw [ih (acc.1 ++ r, acc.2 || (acc.1 ++ r).isEmpty) hne]
      simp [List.isEmpty_eq_false.mpr hne]

lemma get_gmvs_fst (rows : List (List ℚ)) :
    (get_gmvs rows).1 = rows.flatten := by
  rw [get_gmvs, get_gmvs_foldl_fst, List.nil_append]

lemma get_gmvs_snd (rows : List (List ℚ)) :
    ((get_gmvs rows).2 = true ↔ rows.head? = some []) := by
  cases rows with
  | nil => simp [get_gmvs]
  | cons r t =>
      rw [get_gmvs, List.foldl_cons]
      dsimp only
      rw [List.nil_append, Bool.false_or]
      by_cases hr : r = []
      · subst hr
        rw [List.isEmpty_nil]
        exact ⟨fun _ => rfl, fun _ => get_gmvs_foldl_snd_true t ([], true) rfl⟩
      · rw [get_gmvs_foldl_snd_stable t (r, r.isEmpty) hr]
        simp [List.isEmpty_eq_false.mpr hr, hr]

lemma get_data_step_eq {A : Type} (gmf_data : ℕ → List (List ℚ))
    (acc : List A × List (List ℚ)) (p : ℕ × List A) :
    get_data_step gmf_data acc p
      = (acc.1 ++ p.2,
         acc.2 ++ (if ((get_gmvs (gmf_data p.1)).1).isEmpty then []
                   else List.replicate p.2.length (get_gmvs (gmf_data p.1)).1)) := by
  unfold get_data_step
  cases h : ((get_gmvs (gmf_data p.1)).1).isEmpty <;> simp [h]

lemma get_data_foldl {A : Type} (gmf_data : ℕ → List (List ℚ)) :
    ∀ (site_assets : List (ℕ × List A)) (acc : List A × List (List ℚ)),
      site_assets.foldl (get_data_step gmf_data) acc
        = (acc.1 ++ site_assets.flatMap (fun p => p.2),
           acc.2 ++ site_assets.flatMap (fun p =>
             if ((get_gmvs (gmf_data p.1)).1).isEmpty then []
             else List.replicate p.2.length (get_gmvs (gmf_data p.1)).1))
  | [], acc => by simp
  | p :: t, acc => by
      rw [List.foldl_cons, get_data_step_eq, get_data_foldl gmf_data t]
      simp [List.flatMap_cons, List.append_assoc]

end ScenarioGetter

/-- Embedding of `BCRGetter.__call__` (hazard_getters.py lines 215-224):
pull triples `(hazard id, assets, value)` in lockstep from the original and
the retrofitted getter, yield the paired values, and stop at the first
`StopIteration`. -/
def BCRGetter.call {H A V : Type} :
    List (H × A × V) → List (H × A × V) → List (H × A × (V × V))
  | o :: os, r :: rs => (o.1, o.2.1, (o.2.2, r.2.2)) :: BCRGetter.call os rs
  | _, _ => []

end OQ

/-- C6 as stated is false on the code: with one site carrying one asset and
no stored ground-motion values for the requested IMT, `get_data` still
appends the site's asset to the returned assets sequence while omitting its
value array, so the two returned sequences have different lengths; moreover
`get_gmvs` emits no warning at all when the query returns no rows. -/
theorem OQ.ScenarioGetter.get_data_counterexample :
    (OQ.ScenarioGetter.get_data [(0, [7])] (fun _ => [])).1 = [7] ∧
    (OQ.ScenarioGetter.get_data [(0, [7])] (fun _ => [])).2 = [] ∧
    ¬((OQ.ScenarioGetter.get_data [(0, [7])] (fun _ => [])).1.length
        = (OQ.ScenarioGetter.get_data [(0, [7])] (fun _ => [])).2.length) ∧
    (OQ.ScenarioGetter.get_gmvs []).2 = false := by
  refine ⟨rfl, rfl, ?_, rfl⟩
  decide

/-- C6 (amended): for every site in the mapping, `get_data` always appends
the site's assets to the returned assets sequence; a value array — the same
array broadcast once per asset of the site — is appended only for sites
whose stored rows yield a non-empty value list, so the hazard-data sequence
covers only those sites; `get_gmvs` returns the concatenation of the stored
rows, and logs the missing-data warning exactly when the first row fetched
for the site is itself empty (in particular, never when no rows exist). -/
theorem OQ.ScenarioGetter.get_data_amended {A : Type}
    (site_assets : List (ℕ × List A)) (gmf_data : ℕ → List (List ℚ)) :
    (OQ.ScenarioGetter.get_data site_assets gmf_data).1
      = site_assets.flatMap (fun p => p.2) ∧
    (OQ.ScenarioGetter.get_data site_assets gmf_data).2
      = site_assets.flatMap (fun p =>
          if ((OQ.ScenarioGetter.get_gmvs (gmf_data p.1)).1).isEmpty then []
          else List.replicate p.2.length
            (OQ.ScenarioGetter.get_gmvs (gmf_data p.1)).1) ∧
    (∀ rows : List (List ℚ),
      (OQ.ScenarioGetter.get_gmvs rows).1 = rows.flatten) ∧
    (∀ rows : List (List ℚ),
      ((OQ.ScenarioGetter.get_gmvs rows).2 = true ↔ rows.head? = some [])) := by
  refine ⟨?_, ?_, OQ.ScenarioGetter.get_gmvs_fst, OQ.ScenarioGetter.get_gmvs_snd⟩
  · rw [OQ.ScenarioGetter.get_data, OQ.ScenarioGetter.get_data_foldl]
    dsimp only
    rw [List.nil_append]
  · rw [OQ.ScenarioGetter.get_data, OQ.ScenarioGetter.get_data_foldl]
    dsimp only
    rw [List.nil_append]

/-- C7: `BCRGetter.__call__` yields exactly `min` of the two lengths many
triples, pairing the `k`-th item of the original getter with the `k`-th item
of the retrofitted getter — the hazard id and assets are taken from the
original item and the values are paired — and stops at the first exhausted
sequence. -/
theorem OQ.BCRGetter.call_spec {H A V : Type}
    (orig retro : List (H × A × V)) :
    (OQ.BCRGetter.call orig retro).length = min orig.length retro.length ∧
    ∀ k : ℕ, (OQ.BCRGetter.call orig retro)[k]?
      = orig[k]?.bind (fun o =>
          retro[k]?.map (fun r => (o.1, o.2.1, (o.2.2, r.2.2)))) := by
  induction orig generalizing retro with
  | nil =>
      exact ⟨by simp [OQ.BCRGetter.call], fun k => by simp [OQ.BCRGetter.call]⟩
  | cons o os ih =>
      cases retro with
      | nil =>
          refine ⟨by simp [OQ.BCRGetter.call], fun k => ?_⟩
          simp [OQ.BCRGetter.call]
      | cons r rs =>
          obtain ⟨ihlen, ihidx⟩ := ih rs
          constructor
          · simp only [OQ.BCRGetter.call, List.length_cons, ihlen]
            rw [Nat.succ_min_succ]
          · intro k
            cases k with
            | zero => simp [OQ.BCRGetter.call]
            | succ n => simp [OQ.BCRGetter.call, ihidx n]

/-- C10: constructing a hazard getter with an empty site→assets mapping
fails the constructor assertion; a successfully constructed getter stores
the non-empty mapping unchanged, and its `assets` property is exactly the
concatenation of every site group's assets in mapping order. -/
theorem OQ.HazardGetter.init_spec {H A : Type} (outs : List H)
    (site_assets : List (ℕ × List A)) (imt : String) :
    (OQ.HazardGetter.init outs site_assets imt = none ↔ site_assets = []) ∧
    (∀ g, OQ.HazardGetter.init outs site_assets imt = some g →
      g.site_assets = site_assets ∧ site_assets ≠ [] ∧
      g.assets = (site_assets.map (fun p => p.2)).flatten) := by
  cases site_assets with
  | nil =>
      refine ⟨by simp [OQ.HazardGetter.init], fun g hg => ?_⟩
      simp [OQ.HazardGetter.init] at hg
  | cons p t =>
      refine ⟨by simp [OQ.HazardGetter.init], fun g hg => ?_⟩
      simp only [OQ.HazardGetter.init, List.isEmpty_cons, Bool.false_eq_true,
        if_false, Option.some.injEq] at hg
      subst hg
      refine ⟨rfl, by simp, ?_⟩
      unfold OQ.HazardGetter.assets
      exact List.flatMap_def _ _

/-- Witness for C10: a two-site mapping passes the constructor and its
assets are the flattened site groups. -/
theorem OQ.HazardGetter.init_spec_witness :
    OQ.HazardGetter.init ([] : List Unit) [(1, [5, 6]), (2, [7])] "PGA"
      = some ⟨[], [(1, [5, 6]), (2, [7])], "PGA"⟩ ∧
    (⟨[], [(1, [5, 6]), (2, [7])], "PGA"⟩ : OQ.HazardGetter Unit ℕ).assets
      = [5, 6, 7] := by
  constructor
  · rfl
  · have h := (OQ.HazardGetter.init_spec ([] : List Unit)
      [(1, [5, 6]), (2, [7])] "PGA").2
      ⟨[], [(1, [5, 6]), (2, [7])], "PGA"⟩ rfl
    rw [h.2.2]
    rfl
